import Mathlib

/-!
Verification of benhoff/extract_function.

The repository has two scripts:
  * `cplusplus_extract_function.py` — extracts C++ function bodies by brace
    counting, with a ctags-based symbol index and a curses selector TUI.
  * `python_extract_function.py` — extracts Python functions via the `ast`
    module's node spans (including decorators), with a curses selector TUI.

This file shallowly embeds the pure cores of both scripts: file contents are
`List String` (one entry per line), the curses event loop is a step function
on an explicit selector state driven by a list of key codes, and the
orchestrators' `print`/`sys.exit` effects are reified as output-item lists
plus an exit code.  External collaborators (ctags, `ast.parse`, the terminal)
are modelled as inputs: the symbol index, the list of function-definition
nodes, and the key-code sequence are parameters.
-/

set_option maxRecDepth 8000

namespace ExtractFunction

/-- The character with code 123, an opening curly brace (written by codepoint
so the source stays free of literal brace characters). -/
def openBraceChar : Char := Char.ofNat 123

/-- The character with code 125, a closing curly brace. -/
def closeBraceChar : Char := Char.ofNat 125

/-- Model of Python's `str.lower` on a single character, restricted to the
Latin-1 range (`chr(key)` for `0 ≤ key ≤ 255` always lands there): ASCII
upper-case letters and the Latin-1 upper-case letters `À`–`Þ` (excluding the
multiplication sign, code 215) map down by 32; other characters are fixed.
Characters outside Latin-1 are left unchanged by this model. -/
def pyLowerChar (c : Char) : Char :=
  if (65 ≤ c.toNat ∧ c.toNat ≤ 90) ∨
     (192 ≤ c.toNat ∧ c.toNat ≤ 222 ∧ c.toNat ≠ 215) then
    Char.ofNat (c.toNat + 32)
  else c

/-- Model of Python's `str.isalnum` on a single Latin-1 character: Unicode
categories L* and N* intersected with Latin-1 (digits, ASCII letters, and the
Latin-1 letters/numerics ª²³µ¹º¼½¾ and À–ÿ minus × and ÷). -/
def pyIsAlnumChar (c : Char) : Bool :=
  let n := c.toNat
  decide ((48 ≤ n ∧ n ≤ 57) ∨ (65 ≤ n ∧ n ≤ 90) ∨ (97 ≤ n ∧ n ≤ 122) ∨
    n = 170 ∨ n = 178 ∨ n = 179 ∨ n = 181 ∨ n = 185 ∨ n = 186 ∨
    (188 ≤ n ∧ n ≤ 190) ∨ (192 ≤ n ∧ n ≤ 214) ∨ (216 ≤ n ∧ n ≤ 246) ∨
    (248 ≤ n ∧ n ≤ 255))

/-- Model of Python's substring containment `needle in hay` on character
lists: true iff `needle` occurs contiguously in `hay` (the empty needle is
contained in everything). -/
def containsSub (needle : List Char) : List Char → Bool
  | [] => needle.isEmpty
  | c :: t => needle.isPrefixOf (c :: t) || containsSub needle t

/-- Lower-case a string into its character list, via `pyLowerChar`
(models `s.lower()` followed by character-wise comparison). -/
def pyLowerStr (s : String) : List Char := s.toList.map pyLowerChar

namespace Cpp

/-- Model of Python's `line.count(c)` for a single character. -/
def countChar (line : String) (c : Char) : Nat := line.toList.count c

/-- The scanning loop of `extract_function_body`
(`src/cplusplus_extract_function.py` lines 79–98): each line is appended to
the result; if the line contains an opening brace the count is increased by
the number of opening braces and the `in_function` flag is set; if it
contains a closing brace the count is decreased by the number of closing
braces; after these updates the loop breaks when `in_function` holds and the
count is zero.  Falling off the end of the list models the Python `for` loop
ending at end-of-file, in which case all accumulated lines are returned. -/
def extract_loop : List String → Int → Bool → List String
  | [], _, _ => []
  | line :: rest, brace_count, in_function =>
    let nOpen : Nat := countChar line openBraceChar
    let brace_count := if 0 < nOpen then brace_count + (nOpen : Int) else brace_count
    let in_function := if 0 < nOpen then true else in_function
    let nClose : Nat := countChar line closeBraceChar
    let brace_count := if 0 < nClose then brace_count - (nClose : Int) else brace_count
    line :: (if in_function = true ∧ brace_count = 0 then []
             else extract_loop rest brace_count in_function)

/-- `extract_function_body(cpp_file, start_line)`
(`src/cplusplus_extract_function.py` lines 65–98): converts the 1-based
start line to a 0-based index, returns `[]` when that index is out of range,
and otherwise runs the brace-counting scan from there. -/
def extract_function_body (file_content : List String) (start_line : Int) : List String :=
  let start_idx := start_line - 1
  if start_idx < 0 ∨ (file_content.length : Int) ≤ start_idx then []
  else extract_loop (file_content.drop start_idx.toNat) 0 false

end Cpp

/-- Modelled from the spec: the brace-delimited span resolver exactly as the
claim words it — a counter adds the number of opening braces of each line and
subtracts the number of closing braces; the scan is inside a body once the
counter has gone positive at least once (checked after the additions of the
line); the span ends at the first line thereafter where the counter is
exactly zero; if end of file is reached without the counter returning to
zero, resolution fails (`none`). -/
def claimed_brace_resolve : List String → Int → Bool → Option (List String)
  | [], _, _ => none
  | line :: rest, counter, wentPositive =>
    let afterOpen := counter + (Cpp.countChar line openBraceChar : Int)
    let wentPositive := wentPositive || decide (0 < afterOpen)
    let counter := afterOpen - (Cpp.countChar line closeBraceChar : Int)
    if wentPositive = true ∧ counter = 0 then some [line]
    else (claimed_brace_resolve rest counter wentPositive).map (line :: ·)

/-- Modelled from the amended claim: the same scan, but the "inside a body"
flag is set as soon as any opening-brace character has been seen (whether or
not the counter was ever positive), and reaching end of file without the
termination condition returns all scanned lines rather than failing. -/
def amended_brace_resolve : List String → Int → Bool → List String
  | [], _, _ => []
  | line :: rest, counter, sawOpen =>
    let sawOpen := sawOpen || decide (0 < Cpp.countChar line openBraceChar)
    let counter := counter + (Cpp.countChar line openBraceChar : Int)
                 - (Cpp.countChar line closeBraceChar : Int)
    line :: (if sawOpen = true ∧ counter = 0 then []
             else amended_brace_resolve rest counter sawOpen)

/-- State of the curses selector loop, shared by both scripts: the selected
row, the typed search query (a character list standing for the Python
string), and the currently displayed filtered name list. -/
structure SelState where
  current_row : Nat
  search_query : List Char
  filtered_names : List String
  deriving DecidableEq, Repr

/-- Result of handling one key press: either the loop continues in a new
state, or the function returns (a name, or no selection). -/
inductive StepResult where
  | cont (s : SelState)
  | done (choice : Option String)
  deriving DecidableEq, Repr

/-- The state both selector loops start in: row 0, empty query, and the full
candidate list as the filtered list. -/
def initState (function_names : List String) : SelState :=
  { current_row := 0, search_query := [], filtered_names := function_names }

/-- ncurses `KEY_UP`. -/
def KEY_UP : Int := 259

/-- ncurses `KEY_DOWN`. -/
def KEY_DOWN : Int := 258

/-- ncurses `KEY_ENTER`. -/
def KEY_ENTER : Int := 343

/-- ncurses `KEY_BACKSPACE`. -/
def KEY_BACKSPACE : Int := 263

namespace Cpp

/-- `get_filtered_list(query)` (`src/cplusplus_extract_function.py` lines
121–124): all names that contain the lower-cased query, case-insensitively. -/
def get_filtered_list (function_names : List String) (query : List Char) : List String :=
  let query_lower := query.map pyLowerChar
  function_names.filter (fun fn => containsSub query_lower (pyLowerStr fn))

/-- One iteration of the C++ script's selector loop
(`src/cplusplus_extract_function.py` lines 152–198), as a function of the key
code returned by `getch()`.  Indexing `filtered_names[current_row]` is
modelled with the partial lookup `(·)[·]?`; the reachable-state invariant
(claim C3) shows the index is in bounds whenever the branch is taken. -/
def curses_step (function_names : List String) (s : SelState) (key : Int) : StepResult :=
  if key = KEY_UP then
    .cont { s with current_row := if 0 < s.current_row then s.current_row - 1 else s.current_row }
  else if key = KEY_DOWN then
    .cont { s with current_row :=
      if (s.current_row : Int) < (s.filtered_names.length : Int) - 1 then s.current_row + 1
      else s.current_row }
  else if key = KEY_ENTER ∨ key = 10 ∨ key = 13 then
    if s.filtered_names ≠ [] then .done (s.filtered_names[s.current_row]?)
    else .done none
  else if key = KEY_BACKSPACE ∨ key = 127 ∨ key = 8 then
    if s.search_query ≠ [] then
      let search_query := s.search_query.dropLast
      let filtered_names := get_filtered_list function_names search_query
      let current_row : Nat := 0
      let current_row := if filtered_names.length ≤ current_row
                         then max 0 (filtered_names.length - 1) else current_row
      .cont { current_row := current_row, search_query := search_query,
              filtered_names := filtered_names }
    else .cont s
  else if key = 27 then
    .done none
  else if 0 ≤ key ∧ key ≤ 255 then
    let ch := Char.ofNat key.toNat
    if pyIsAlnumChar ch || ch = Char.ofNat 95 then
      let search_query := s.search_query ++ [ch]
      let filtered_names := get_filtered_list function_names search_query
      let current_row : Nat := 0
      let current_row := if filtered_names.length ≤ current_row
                         then max 0 (filtered_names.length - 1) else current_row
      .cont { current_row := current_row, search_query := search_query,
              filtered_names := filtered_names }
    else .cont s
  else .cont s

/-- Run the C++ selector loop over a list of key codes, returning the state
it is still browsing in, or `none` if some key made it return. -/
def run_from (function_names : List String) : SelState → List Int → Option SelState
  | s, [] => some s
  | s, k :: ks =>
    match curses_step function_names s k with
    | .cont s2 => run_from function_names s2 ks
    | .done _ => none

/-- Run the C++ selector loop over a list of key codes, returning `some r`
when some key made it return with `r`, and `none` while it is still
browsing after all keys. -/
def run_result (function_names : List String) : SelState → List Int → Option (Option String)
  | _, [] => none
  | s, k :: ks =>
    match curses_step function_names s k with
    | .cont s2 => run_result function_names s2 ks
    | .done r => some r

/-- One item of the C++ script's printed output: each constructor models one
`print` statement of `process_functions` / `choose_function_interactively` /
`main`, carrying exactly the data interpolated into the message. -/
inductive OutputItem where
  | errNotFound (fname : String)
  | errExtract (fname : String) (ln : Int)
  | headerSingle (fname : String) (ln : Int)
  | headerMulti (fname : String) (idx : Nat) (ln : Int)
  | bodyLine (line : String)
  | sep
  | errNoFunctions
  | errNoRetrieve
  | infoCancelled
  deriving DecidableEq, Repr

/-- The symbol index built by `get_function_positions`: a name-to-positions
association list (the Python dict, whose keys are unique). -/
abbrev PosMap : Type := List (String × List Int)

/-- `function_positions.get(fname, [])`. -/
def lookupPos (function_positions : PosMap) (fname : String) : List Int :=
  ((List.lookup fname function_positions).getD [])

/-- The inner loop of `process_functions`
(`src/cplusplus_extract_function.py` lines 230–245) over the enumerated
position list (1-based indices, as `enumerate(..., start=1)`): extract the
body at each line; on an empty body print the per-candidate error and
continue; otherwise print the multi- or single-match header according to
`total` (the length of the whole position list), the body lines, and the
separator. -/
def process_positions (file_content : List String) (fname : String) (total : Nat) :
    List (Nat × Int) → List OutputItem
  | [] => []
  | (idx, ln) :: rest =>
    (let func_body := extract_function_body file_content ln
     if func_body = [] then [OutputItem.errExtract fname ln]
     else
       (if 1 < total then [OutputItem.headerMulti fname idx ln]
        else [OutputItem.headerSingle fname ln])
       ++ func_body.map OutputItem.bodyLine ++ [OutputItem.sep])
    ++ process_positions file_content fname total rest

/-- `process_functions(cpp_file, function_positions, function_names)`
(`src/cplusplus_extract_function.py` lines 220–245): for each requested name,
look its positions up; if there are none print the not-found error and
continue; otherwise run the inner loop over the enumerated positions. -/
def process_functions (file_content : List String) (function_positions : PosMap) :
    List String → List OutputItem
  | [] => []
  | fname :: rest =>
    (let line_numbers := lookupPos function_positions fname
     if line_numbers = [] then [OutputItem.errNotFound fname]
     else process_positions file_content fname line_numbers.length
            (line_numbers.enumFrom 1))
    ++ process_functions file_content function_positions rest

/-- Python truthiness of the selector's result: `not chosen_function` is true
for `None` and for the empty string. -/
def pyFalsyStr : Option String → Bool
  | none => true
  | some s => s == ""

/-- `choose_function_interactively(cpp_file, function_positions)`
(`src/cplusplus_extract_function.py` lines 202–218), with the selector's
result supplied as a parameter (the TUI is an external collaborator): sort
the key list; exit 1 when it is empty; exit 0 with the info message when the
selection is falsy; otherwise return the chosen name as a one-element list.
`Except.error n` models `sys.exit(n)`. -/
def choose_function_interactively (function_positions : PosMap)
    (chosen_function : Option String) : List OutputItem × Except Nat (List String) :=
  let all_func_names := (function_positions.map Prod.fst).mergeSort (fun a b => decide (a ≤ b))
  if all_func_names = [] then ([OutputItem.errNoFunctions], Except.error 1)
  else if pyFalsyStr chosen_function then ([OutputItem.infoCancelled], Except.error 0)
  else ([], Except.ok [chosen_function.getD ""])

/-- The `main()` flow of the C++ script for the interactive path
(`len(sys.argv) == 2`, lines 247–272), given the already built symbol index
and the selector's result: an empty index exits 1; otherwise the chosen
name list is processed and the run ends with exit code 0. -/
def main_interactive (file_content : List String) (function_positions : PosMap)
    (selector_result : Option String) : List OutputItem × Nat :=
  if function_positions = ([] : PosMap) then ([OutputItem.errNoRetrieve], 1)
  else
    match choose_function_interactively function_positions selector_result with
    | (out, Except.error code) => (out, code)
    | (out, Except.ok function_names) =>
      (out ++ process_functions file_content function_positions function_names, 0)

end Cpp

namespace Py

/-- An `ast.FunctionDef` node as the Python script uses it: its name, the
1-based line of the `def` keyword (`lineno`), the grammar-reported 1-based
last line (`end_lineno`, always present on Python ≥ 3.8 — the script's
`hasattr` guard is modelled as passing), and the `lineno`s of the nodes in
`decorator_list` (every decorator expression node carries a `lineno`, so the
script's `hasattr(dec, 'lineno')` filter is the identity). -/
structure FunctionDef where
  name : String
  lineno : Nat
  end_lineno : Nat
  decorator_list : List Nat
  deriving DecidableEq, Repr

/-- The start-line computation of `extract_function`
(`src/python_extract_function.py` lines 39–45): the declaration line,
lowered to the minimum decorator line when decorators exist (Python's
`min(start_lineno, min(decorator_lines))`, with `min` of a non-empty list
modelled as a fold). -/
def start_lineno (node : FunctionDef) : Nat :=
  let start := node.lineno
  match node.decorator_list with
  | [] => start
  | d :: ds => min start (ds.foldl min d)

/-- The slice `source_lines[start_lineno - 1 : end_lineno]`
(`src/python_extract_function.py` lines 48–49), with Python slice clamping
given by `take`/`drop`. -/
def extract_lines (source_lines : List String) (node : FunctionDef) : List String :=
  (source_lines.take node.end_lineno).drop (start_lineno node - 1)

/-- One item of the Python script's printed output. -/
inductive PyOut where
  | errNotFound (function_name : Option String)
  | extracted (lines : List String)
  | errNoFunctions
  deriving DecidableEq, Repr

/-- `extract_function(file_path, function_name)`
(`src/python_extract_function.py` lines 7–53), after the file read and
`ast.parse` (both external, supplied as the walk-order node list and the
line list).  The script may receive `None` here (the TUI's no-selection
result is passed through unchecked), so the name is an `Option String`;
`node.name == function_name` is false for every node when the name is
`None`.  On a miss it prints the not-found message and exits 1; on a hit it
prints the sliced lines and falls off the end of the script (exit 0). -/
def extract_function (tree : List FunctionDef) (source_lines : List String)
    (function_name : Option String) : List PyOut × Nat :=
  match tree.find? (fun node => some node.name == function_name) with
  | none => ([PyOut.errNotFound function_name], 1)
  | some node => ([PyOut.extracted (extract_lines source_lines node)], 0)

/-- `get_function_names(file_path)` (`src/python_extract_function.py` lines
56–76), given the walk-order node list: the names of all function
definitions. -/
def get_function_names (tree : List FunctionDef) : List String :=
  tree.map (fun node => node.name)

/-- `filter_list(query)` (`src/python_extract_function.py` lines 101–104):
all names containing the lower-cased query, case-insensitively. -/
def filter_list (function_names : List String) (query : List Char) : List String :=
  let q_lower := query.map pyLowerChar
  function_names.filter (fun fn => containsSub q_lower (pyLowerStr fn))

/-- One iteration of the Python script's selector loop
(`src/python_extract_function.py` lines 132–173).  It differs from the C++
script's loop in one way: there is no Escape branch (it is commented out in
the source), so key 27 falls through to the printable-character check and is
ignored. -/
def curses_step (function_names : List String) (s : SelState) (key : Int) : StepResult :=
  if key = KEY_UP then
    .cont { s with current_row := if 0 < s.current_row then s.current_row - 1 else s.current_row }
  else if key = KEY_DOWN then
    .cont { s with current_row :=
      if (s.current_row : Int) < (s.filtered_names.length : Int) - 1 then s.current_row + 1
      else s.current_row }
  else if key = KEY_ENTER ∨ key = 10 ∨ key = 13 then
    if s.filtered_names ≠ [] then .done (s.filtered_names[s.current_row]?)
    else .done none
  else if key = KEY_BACKSPACE ∨ key = 127 ∨ key = 8 then
    if s.search_query ≠ [] then
      let search_query := s.search_query.dropLast
      let filtered_functions := filter_list function_names search_query
      let current_row : Nat := 0
      let current_row := if filtered_functions.length ≤ current_row
                         then max 0 (filtered_functions.length - 1) else current_row
      .cont { current_row := current_row, search_query := search_query,
              filtered_names := filtered_functions }
    else .cont s
  else
    if 0 ≤ key ∧ key < 256 then
      let ch := Char.ofNat key.toNat
      if pyIsAlnumChar ch || ch = Char.ofNat 95 then
        let search_query := s.search_query ++ [ch]
        let filtered_functions := filter_list function_names search_query
        let current_row : Nat := 0
        let current_row := if filtered_functions.length ≤ current_row
                           then max 0 (filtered_functions.length - 1) else current_row
        .cont { current_row := current_row, search_query := search_query,
                filtered_names := filtered_functions }
      else .cont s
    else .cont s

/-- Run the Python selector loop over a list of key codes, returning the
state it is still browsing in, or `none` if some key made it return. -/
def run_from (function_names : List String) : SelState → List Int → Option SelState
  | s, [] => some s
  | s, k :: ks =>
    match curses_step function_names s k with
    | .cont s2 => run_from function_names s2 ks
    | .done _ => none

/-- Run the Python selector loop over a list of key codes, returning
`some r` when some key made it return with `r`. -/
def run_result (function_names : List String) : SelState → List Int → Option (Option String)
  | _, [] => none
  | s, k :: ks =>
    match curses_step function_names s k with
    | .cont s2 => run_result function_names s2 ks
    | .done r => some r

/-- The `__main__` flow of the Python script for the interactive path
(`len(sys.argv) == 2`, `src/python_extract_function.py` lines 190–205),
given the parsed node list and the selector's result:
`choose_function_from_file` exits 1 when no functions exist, otherwise
returns the selector's result — which is then passed to `extract_function`
with no check for a missing selection. -/
def main_interactive (tree : List FunctionDef) (source_lines : List String)
    (selector_result : Option String) : List PyOut × Nat :=
  if get_function_names tree = [] then ([PyOut.errNoFunctions], 1)
  else extract_function tree source_lines selector_result

end Py

/-- The selection-index invariant of a selector state (claim C3): the row is
in bounds when the filtered list is non-empty and zero when it is empty. -/
def SelInv (s : SelState) : Prop :=
  (s.filtered_names ≠ [] → s.current_row < s.filtered_names.length) ∧
  (s.filtered_names = [] → s.current_row = 0)

/-! ## Theorems -/

theorem resetRow_inv (fl : List String) (q : List Char) :
    SelInv ⟨if fl.length ≤ 0 then max 0 (fl.length - 1) else 0, q, fl⟩ := by
  constructor
  · intro hne
    have hpos : 0 < fl.length := List.length_pos.mpr hne
    show (if fl.length ≤ 0 then max 0 (fl.length - 1) else 0) < fl.length
    rw [if_neg (by omega)]
    exact hpos
  · intro he
    have he2 : fl = [] := he
    show (if fl.length ≤ 0 then max 0 (fl.length - 1) else 0) = 0
    rw [he2]
    decide

theorem cpp_step_inv (full : List String) (s : SelState) (k : Int) (h : SelInv s)
    (s2 : SelState) (hstep : Cpp.curses_step full s k = StepResult.cont s2) : SelInv s2 := by
  obtain ⟨row, q, fl⟩ := s
  obtain ⟨ha, hb⟩ := h
  simp only [Cpp.curses_step] at hstep
  split at hstep
  · injection hstep with hX
    subst hX
    refine ⟨fun hne => ?_, fun he => ?_⟩
    · have h1 : row < fl.length := ha hne
      show (if 0 < row then row - 1 else row) < fl.length
      split <;> omega
    · have h1 : row = 0 := hb he
      show (if 0 < row then row - 1 else row) = 0
      split <;> omega
  · split at hstep
    · injection hstep with hX
      subst hX
      refine ⟨fun hne => ?_, fun he => ?_⟩
      · have h1 : row < fl.length := ha hne
        show (if (row : Int) < (fl.length : Int) - 1 then row + 1 else row) < fl.length
        split <;> omega
      · have h1 : row = 0 := hb he
        have he2 : fl = [] := he
        have hlen : fl.length = 0 := by rw [he2]; rfl
        show (if (row : Int) < (fl.length : Int) - 1 then row + 1 else row) = 0
        split <;> omega
    · split at hstep
      · split at hstep <;> exact StepResult.noConfusion hstep
      · split at hstep
        · split at hstep
          · injection hstep with hX
            subst hX
            exact resetRow_inv _ _
          · injection hstep with hX
            subst hX
            exact ⟨ha, hb⟩
        · split at hstep
          · exact StepResult.noConfusion hstep
          · split at hstep
            · split at hstep
              · injection hstep with hX
                subst hX
                exact resetRow_inv _ _
              · injection hstep with hX
                subst hX
                exact ⟨ha, hb⟩
            · injection hstep with hX
              subst hX
              exact ⟨ha, hb⟩

theorem cpp_run_from_inv (full : List String) : ∀ (ks : List Int) (s t : SelState),
    Cpp.run_from full s ks = some t → SelInv s → SelInv t := by
  intro ks
  induction ks with
  | nil =>
    intro s t h hs
    injection h with h2
    subst h2
    exact hs
  | cons k ks ih =>
    intro s t h hs
    simp only [Cpp.run_from] at h
    cases hstep : Cpp.curses_step full s k with
    | cont s2 =>
      rw [hstep] at h
      exact ih s2 t h (cpp_step_inv full s k hs s2 hstep)
    | done r =>
      rw [hstep] at h
      exact Option.noConfusion h

theorem initState_inv (full : List String) : SelInv (initState full) :=
  ⟨fun hne => List.length_pos.mpr hne, fun _ => rfl⟩

theorem py_step_inv (full : List String) (s : SelState) (k : Int) (h : SelInv s)
    (s2 : SelState) (hstep : Py.curses_step full s k = StepResult.cont s2) : SelInv s2 := by
  obtain ⟨row, q, fl⟩ := s
  obtain ⟨ha, hb⟩ := h
  simp only [Py.curses_step] at hstep
  split at hstep
  · injection hstep with hX
    subst hX
    refine ⟨fun hne => ?_, fun he => ?_⟩
    · have h1 : row < fl.length := ha hne
      show (if 0 < row then row - 1 else row) < fl.length
      split <;> omega
    · have h1 : row = 0 := hb he
      show (if 0 < row then row - 1 else row) = 0
      split <;> omega
  · split at hstep
    · injection hstep with hX
      subst hX
      refine ⟨fun hne => ?_, fun he => ?_⟩
      · have h1 : row < fl.length := ha hne
        show (if (row : Int) < (fl.length : Int) - 1 then row + 1 else row) < fl.length
        split <;> omega
      · have h1 : row = 0 := hb he
        have he2 : fl = [] := he
        have hlen : fl.length = 0 := by rw [he2]; rfl
        show (if (row : Int) < (fl.length : Int) - 1 then row + 1 else row) = 0
        split <;> omega
    · split at hstep
      · split at hstep <;> exact StepResult.noConfusion hstep
      · split at hstep
        · split at hstep
          · injection hstep with hX
            subst hX
            exact resetRow_inv _ _
          · injection hstep with hX
            subst hX
            exact ⟨ha, hb⟩
        · split at hstep
          · split at hstep
            · injection hstep with hX
              subst hX
              exact resetRow_inv _ _
            · injection hstep with hX
              subst hX
              exact ⟨ha, hb⟩
          · injection hstep with hX
            subst hX
            exact ⟨ha, hb⟩

theorem py_run_from_inv (full : List String) : ∀ (ks : List Int) (s t : SelState),
    Py.run_from full s ks = some t → SelInv s → SelInv t := by
  intro ks
  induction ks with
  | nil =>
    intro s t h hs
    injection h with h2
    subst h2
    exact hs
  | cons k ks ih =>
    intro s t h hs
    simp only [Py.run_from] at h
    cases hstep : Py.curses_step full s k with
    | cont s2 =>
      rw [hstep] at h
      exact ih s2 t h (py_step_inv full s k hs s2 hstep)
    | done r =>
      rw [hstep] at h
      exact Option.noConfusion h

/-- C3: in every state of either script's interactive selector reachable by
any key sequence from the initial state, the selected index is in bounds
whenever the filtered list is non-empty, and equals 0 whenever the filtered
list is empty. -/
theorem claim_C3 :
    (∀ (full : List String) (ks : List Int) (s : SelState),
       Cpp.run_from full (initState full) ks = some s →
       (s.filtered_names ≠ [] → s.current_row < s.filtered_names.length) ∧
       (s.filtered_names = [] → s.current_row = 0)) ∧
    (∀ (full : List String) (ks : List Int) (s : SelState),
       Py.run_from full (initState full) ks = some s →
       (s.filtered_names ≠ [] → s.current_row < s.filtered_names.length) ∧
       (s.filtered_names = [] → s.current_row = 0)) :=
  ⟨fun full ks s h => cpp_run_from_inv full ks _ s h (initState_inv full),
   fun full ks s h => py_run_from_inv full ks _ s h (initState_inv full)⟩

/-- C3 witness: after pressing Down once with candidates `["alpha","beta"]`,
the C++ selector sits at row 1 of a two-element filtered list, and the
invariant holds there. -/
theorem claim_C3_witness :
    Cpp.run_from [("alpha"), ("beta")] (initState [("alpha"), ("beta")]) [258]
      = some ⟨1, [], [("alpha"), ("beta")]⟩ ∧
    ((SelState.mk 1 [] [("alpha"), ("beta")]).filtered_names ≠ [] →
       (SelState.mk 1 [] [("alpha"), ("beta")]).current_row
         < (SelState.mk 1 [] [("alpha"), ("beta")]).filtered_names.length) ∧
    ((SelState.mk 1 [] [("alpha"), ("beta")]).filtered_names = [] →
       (SelState.mk 1 [] [("alpha"), ("beta")]).current_row = 0) := by
  have h : Cpp.run_from [("alpha"), ("beta")] (initState [("alpha"), ("beta")]) [258]
      = some ⟨1, [], [("alpha"), ("beta")]⟩ := by decide
  exact ⟨h, claim_C3.1 [("alpha"), ("beta")] [258] _ h⟩

theorem extract_loop_eq_amended (l : List String) : ∀ (c : Int) (b : Bool),
    Cpp.extract_loop l c b = amended_brace_resolve l c b := by
  induction l with
  | nil => intro c b; rfl
  | cons line rest ih =>
    intro c b
    simp only [Cpp.extract_loop, amended_brace_resolve]
    have hflag : (if 0 < Cpp.countChar line openBraceChar then true else b)
        = (b || decide (0 < Cpp.countChar line openBraceChar)) := by
      by_cases h : 0 < Cpp.countChar line openBraceChar <;> simp [h]
    have hcount : (if 0 < Cpp.countChar line closeBraceChar then
          (if 0 < Cpp.countChar line openBraceChar then
            c + (Cpp.countChar line openBraceChar : Int) else c)
          - (Cpp.countChar line closeBraceChar : Int)
        else (if 0 < Cpp.countChar line openBraceChar then
            c + (Cpp.countChar line openBraceChar : Int) else c))
        = c + (Cpp.countChar line openBraceChar : Int)
          - (Cpp.countChar line closeBraceChar : Int) := by
      by_cases h1 : 0 < Cpp.countChar line openBraceChar <;>
        by_cases h2 : 0 < Cpp.countChar line closeBraceChar <;>
        simp [h1, h2] <;> omega
    rw [hflag, hcount, ih]

/-- C1 (amended): for every file and every in-range start line, the
brace-delimited span resolver agrees with the claim-worded scan in which the
"inside a body" flag is set once any opening brace has been seen, and
reaching end of file without the counter's return to zero yields all lines
from the start line through end of file instead of a failure. -/
theorem claim_C1 (file_content : List String) (start_line : Int)
    (h1 : 1 ≤ start_line) (h2 : start_line ≤ (file_content.length : Int)) :
    Cpp.extract_function_body file_content start_line
      = amended_brace_resolve (file_content.drop (start_line - 1).toNat) 0 false := by
  simp only [Cpp.extract_function_body]
  rw [if_neg (by omega)]
  exact extract_loop_eq_amended _ 0 false

/-- C1 witness: the amended resolver equation instantiated on a concrete
three-line function. -/
theorem claim_C1_witness :
    (1 : Int) ≤ 1 ∧
    (1 : Int) ≤ (List.length [("void f() \x7b"), ("return;"), ("\x7d")] : Int) ∧
    Cpp.extract_function_body [("void f() \x7b"), ("return;"), ("\x7d")] 1
      = amended_brace_resolve
          (List.drop ((1 - 1 : Int)).toNat [("void f() \x7b"), ("return;"), ("\x7d")]) 0 false :=
  ⟨by decide, by decide, claim_C1 _ 1 (by decide) (by decide)⟩

/-- C1 counterexample: on a one-line file whose single line opens a brace
that never closes, the counter goes positive and never returns to zero, so
the claimed resolver fails — but `extract_function_body` does not fail: it
returns the scanned lines (the caller treats any non-empty list as a
successfully resolved span). -/
theorem claim_C1_counterexample :
    claimed_brace_resolve [("void f() \x7b")] 0 false = none ∧
    Cpp.extract_function_body [("void f() \x7b")] 1 = [("void f() \x7b")] :=
  ⟨rfl, rfl⟩

theorem foldl_min_of_le (d : Nat) (ds : List Nat) (h : ∀ x ∈ ds, d ≤ x) :
    ds.foldl min d = d := by
  induction ds generalizing d with
  | nil => rfl
  | cons x t ih =>
    simp only [List.foldl_cons]
    rw [Nat.min_eq_left (h x (by simp))]
    exact ih d (fun y hy => h y (by simp [hy]))

/-- C2: for every indentation-mode function node, (a) with no decorators the
resolved start line is the declaration line; (b) with decorators on
increasing lines `d :: ds`, all below the declaration line, the resolved
start line is `min d declLine`; and (c) the extracted block always reaches
exactly through the grammar-reported `end_lineno`, independent of the
decorators: its length is `end_lineno - (start - 1)`. -/
theorem claim_C2 :
    (∀ node : Py.FunctionDef, node.decorator_list = [] →
       Py.start_lineno node = node.lineno) ∧
    (∀ (node : Py.FunctionDef) (d : Nat) (ds : List Nat),
       node.decorator_list = d :: ds →
       List.Sorted (· < ·) (d :: ds) →
       (∀ x ∈ d :: ds, x < node.lineno) →
       Py.start_lineno node = min d node.lineno) ∧
    (∀ (node : Py.FunctionDef) (source_lines : List String),
       node.end_lineno ≤ source_lines.length →
       (Py.extract_lines source_lines node).length
         = node.end_lineno - (Py.start_lineno node - 1)) := by
  refine ⟨?_, ?_, ?_⟩
  · intro node h
    simp [Py.start_lineno, h]
  · intro node d ds hdl hsorted hbelow
    have hle : ∀ x ∈ ds, d ≤ x := by
      intro x hx
      exact Nat.le_of_lt ((List.sorted_cons.mp hsorted).1 x hx)
    simp only [Py.start_lineno, hdl]
    rw [foldl_min_of_le d ds hle, Nat.min_comm]
  · intro node source_lines h
    simp only [Py.extract_lines, List.length_drop, List.length_take]
    omega

/-- C2 witness: a node at line 5 ending at line 9 with decorators on lines 2
and 3 resolves to start `min 2 5 = 2`, and its extracted block on a 9-line
file has length `9 - 1 = 8`. -/
theorem claim_C2_witness :
    Py.start_lineno ⟨("f"), 5, 9, [2, 3]⟩ = min 2 5 ∧
    (Py.extract_lines (List.replicate 9 ("x")) ⟨("f"), 5, 9, [2, 3]⟩).length
      = 9 - (Py.start_lineno ⟨("f"), 5, 9, [2, 3]⟩ - 1) :=
  ⟨claim_C2.2.1 ⟨("f"), 5, 9, [2, 3]⟩ 2 [3] rfl (by decide) (by decide),
   claim_C2.2.2 ⟨("f"), 5, 9, [2, 3]⟩ (List.replicate 9 ("x")) (by decide)⟩

theorem containsSub_nil (hay : List Char) : containsSub [] hay = true := by
  cases hay <;> rfl

theorem cpp_get_filtered_list_nil (full : List String) :
    Cpp.get_filtered_list full [] = full := by
  simp [Cpp.get_filtered_list, containsSub_nil]

theorem py_filter_list_nil (full : List String) :
    Py.filter_list full [] = full := by
  simp [Py.filter_list, containsSub_nil]

theorem cpp_step_filter (full : List String) (s : SelState) (k : Int)
    (h : s.filtered_names = Cpp.get_filtered_list full s.search_query)
    (s2 : SelState) (hstep : Cpp.curses_step full s k = StepResult.cont s2) :
    s2.filtered_names = Cpp.get_filtered_list full s2.search_query := by
  obtain ⟨row, q, fl⟩ := s
  simp only [Cpp.curses_step] at hstep
  split at hstep
  · injection hstep with hX
    subst hX
    exact h
  · split at hstep
    · injection hstep with hX
      subst hX
      exact h
    · split at hstep
      · split at hstep <;> exact StepResult.noConfusion hstep
      · split at hstep
        · split at hstep
          · injection hstep with hX
            subst hX
            rfl
          · injection hstep with hX
            subst hX
            exact h
        · split at hstep
          · exact StepResult.noConfusion hstep
          · split at hstep
            · split at hstep
              · injection hstep with hX
                subst hX
                rfl
              · injection hstep with hX
                subst hX
                exact h
            · injection hstep with hX
              subst hX
              exact h

theorem py_step_filter (full : List String) (s : SelState) (k : Int)
    (h : s.filtered_names = Py.filter_list full s.search_query)
    (s2 : SelState) (hstep : Py.curses_step full s k = StepResult.cont s2) :
    s2.filtered_names = Py.filter_list full s2.search_query := by
  obtain ⟨row, q, fl⟩ := s
  simp only [Py.curses_step] at hstep
  split at hstep
  · injection hstep with hX
    subst hX
    exact h
  · split at hstep
    · injection hstep with hX
      subst hX
      exact h
    · split at hstep
      · split at hstep <;> exact StepResult.noConfusion hstep
      · split at hstep
        · split at hstep
          · injection hstep with hX
            subst hX
            rfl
          · injection hstep with hX
            subst hX
            exact h
        · split at hstep
          · split at hstep
            · injection hstep with hX
              subst hX
              rfl
            · injection hstep with hX
              subst hX
              exact h
          · injection hstep with hX
            subst hX
            exact h

theorem cpp_run_from_filter (full : List String) : ∀ (ks : List Int) (s t : SelState),
    Cpp.run_from full s ks = some t →
    s.filtered_names = Cpp.get_filtered_list full s.search_query →
    t.filtered_names = Cpp.get_filtered_list full t.search_query := by
  intro ks
  induction ks with
  | nil =>
    intro s t h hs
    injection h with h2
    subst h2
    exact hs
  | cons k ks ih =>
    intro s t h hs
    simp only [Cpp.run_from] at h
    cases hstep : Cpp.curses_step full s k with
    | cont s2 =>
      rw [hstep] at h
      exact ih s2 t h (cpp_step_filter full s k hs s2 hstep)
    | done r =>
      rw [hstep] at h
      exact Option.noConfusion h

theorem py_run_from_filter (full : List String) : ∀ (ks : List Int) (s t : SelState),
    Py.run_from full s ks = some t →
    s.filtered_names = Py.filter_list full s.search_query →
    t.filtered_names = Py.filter_list full t.search_query := by
  intro ks
  induction ks with
  | nil =>
    intro s t h hs
    injection h with h2
    subst h2
    exact hs
  | cons k ks ih =>
    intro s t h hs
    simp only [Py.run_from] at h
    cases hstep : Py.curses_step full s k with
    | cont s2 =>
      rw [hstep] at h
      exact ih s2 t h (py_step_filter full s k hs s2 hstep)
    | done r =>
      rw [hstep] at h
      exact Option.noConfusion h

/-- C4: in every reachable state of either script's selector — hence after
any sequence of character-append and backspace events, in any order — the
displayed filtered list equals the case-insensitive substring filter of the
full original candidate list by the current query: it depends only on the
final query, not on the edit history. -/
theorem claim_C4 :
    (∀ (full : List String) (ks : List Int) (s : SelState),
       Cpp.run_from full (initState full) ks = some s →
       s.filtered_names = Cpp.get_filtered_list full s.search_query) ∧
    (∀ (full : List String) (ks : List Int) (s : SelState),
       Py.run_from full (initState full) ks = some s →
       s.filtered_names = Py.filter_list full s.search_query) :=
  ⟨fun full ks s h =>
     cpp_run_from_filter full ks _ s h (cpp_get_filtered_list_nil full).symm,
   fun full ks s h =>
     py_run_from_filter full ks _ s h (py_filter_list_nil full).symm⟩

/-- C4 witness: after typing `q` (key 113) with candidate `["alpha"]` the
reached state's filtered list is exactly the direct filter of the full list
by the query `"q"` (the empty list). -/
theorem claim_C4_witness :
    Cpp.run_from [("alpha")] (initState [("alpha")]) [113]
      = some ⟨0, [('q' : Char)], []⟩ ∧
    (SelState.mk 0 [('q' : Char)] []).filtered_names
      = Cpp.get_filtered_list [("alpha")] (SelState.mk 0 [('q' : Char)] []).search_query := by
  have h : Cpp.run_from [("alpha")] (initState [("alpha")]) [113]
      = some ⟨0, [('q' : Char)], []⟩ := by decide
  exact ⟨h, claim_C4.1 [("alpha")] [113] _ h⟩

/-- C5 (amended): in every reachable selector state (either script), a
confirm key (`KEY_ENTER`, 10 or 13) with a non-empty filtered list
terminates the loop returning the filtered list's element at the selected
index (which is in bounds); with an empty filtered list it also terminates
the loop, returning no selection — it is not a no-op that stays in
Browsing. -/
theorem claim_C5 :
    (∀ (full : List String) (ks : List Int) (s : SelState),
       Cpp.run_from full (initState full) ks = some s →
       ∀ key : Int, (key = 343 ∨ key = 10 ∨ key = 13) →
       (s.filtered_names ≠ [] →
          s.current_row < s.filtered_names.length ∧
          Cpp.curses_step full s key
            = StepResult.done (s.filtered_names[s.current_row]?)) ∧
       (s.filtered_names = [] →
          Cpp.curses_step full s key = StepResult.done none)) ∧
    (∀ (full : List String) (ks : List Int) (s : SelState),
       Py.run_from full (initState full) ks = some s →
       ∀ key : Int, (key = 343 ∨ key = 10 ∨ key = 13) →
       (s.filtered_names ≠ [] →
          s.current_row < s.filtered_names.length ∧
          Py.curses_step full s key
            = StepResult.done (s.filtered_names[s.current_row]?)) ∧
       (s.filtered_names = [] →
          Py.curses_step full s key = StepResult.done none)) := by
  constructor
  · intro full ks s hrun key hk
    have hinv := cpp_run_from_inv full ks _ s hrun (initState_inv full)
    constructor
    · intro hne
      refine ⟨hinv.1 hne, ?_⟩
      rcases hk with rfl | rfl | rfl <;>
        simp [Cpp.curses_step, KEY_UP, KEY_DOWN, KEY_ENTER, KEY_BACKSPACE, hne]
    · intro he
      rcases hk with rfl | rfl | rfl <;>
        simp [Cpp.curses_step, KEY_UP, KEY_DOWN, KEY_ENTER, KEY_BACKSPACE, he]
  · intro full ks s hrun key hk
    have hinv := py_run_from_inv full ks _ s hrun (initState_inv full)
    constructor
    · intro hne
      refine ⟨hinv.1 hne, ?_⟩
      rcases hk with rfl | rfl | rfl <;>
        simp [Py.curses_step, KEY_UP, KEY_DOWN, KEY_ENTER, KEY_BACKSPACE, hne]
    · intro he
      rcases hk with rfl | rfl | rfl <;>
        simp [Py.curses_step, KEY_UP, KEY_DOWN, KEY_ENTER, KEY_BACKSPACE, he]

/-- C5 witness: in the initial state with candidate `["alpha"]`, pressing
Enter (key 10) terminates the C++ selector returning `"alpha"` (element 0). -/
theorem claim_C5_witness :
    Cpp.run_from [("alpha")] (initState [("alpha")]) [] = some (initState [("alpha")]) ∧
    ((10 : Int) = 343 ∨ (10 : Int) = 10 ∨ (10 : Int) = 13) ∧
    Cpp.curses_step [("alpha")] (initState [("alpha")]) 10
      = StepResult.done
          ((initState [("alpha")]).filtered_names[(initState [("alpha")]).current_row]?) := by
  refine ⟨rfl, Or.inr (Or.inl rfl), ?_⟩
  exact ((claim_C5.1 [("alpha")] [] _ rfl 10 (Or.inr (Or.inl rfl))).1 (by decide)).2

/-- C5 counterexample: with candidate `["alpha"]`, typing `q` reaches the
Browsing state with an empty filtered list, and pressing Enter there does
not remain in Browsing: the loop terminates with no selection (so the claim
that an empty-list confirm is a no-op is false of the code). -/
theorem claim_C5_counterexample :
    Cpp.run_from [("alpha")] (initState [("alpha")]) [113]
      = some ⟨0, [('q' : Char)], []⟩ ∧
    Cpp.curses_step [("alpha")] ⟨0, [('q' : Char)], []⟩ 10 = StepResult.done none ∧
    Cpp.run_from [("alpha")] (initState [("alpha")]) [113, 10] = none :=
  ⟨by decide, by decide, by decide⟩

/-- C6 (amended): in the C++ script's selector the Escape key (27)
terminates with no selection (Cancelled) from every Browsing state; in the
Python script's selector the Escape handler is commented out, so key 27 is
ignored and the selector remains Browsing in the same state. -/
theorem claim_C6 :
    (∀ (full : List String) (s : SelState),
       Cpp.curses_step full s 27 = StepResult.done none) ∧
    (∀ (full : List String) (s : SelState),
       Py.curses_step full s 27 = StepResult.cont s) := by
  constructor <;> intro full s <;> rfl

/-- C6 counterexample: pressing Escape in the Python script's selector does
not cancel: after key 27 the selector is still browsing, in its initial
state, and has not returned. -/
theorem claim_C6_counterexample :
    Py.run_from [("alpha")] (initState [("alpha")]) [27]
      = some (initState [("alpha")]) ∧
    Py.run_result [("alpha")] (initState [("alpha")]) [27] = none :=
  ⟨by decide, by decide⟩

/-- C7: a requested name absent from the symbol index produces exactly the
not-found report for that name, and the output for every other name in the
batch — before and after it — is unchanged: the batch never aborts on a
lookup failure. -/
theorem claim_C7 (file_content : List String) (function_positions : Cpp.PosMap)
    (pre post : List String) (missing : String)
    (h : Cpp.lookupPos function_positions missing = []) :
    Cpp.process_functions file_content function_positions (pre ++ missing :: post)
      = Cpp.process_functions file_content function_positions pre
        ++ Cpp.OutputItem.errNotFound missing
          :: Cpp.process_functions file_content function_positions post := by
  induction pre with
  | nil =>
    simp [Cpp.process_functions, h]
  | cons a t ih =>
    simp only [List.cons_append, Cpp.process_functions, List.append_eq, ih,
      List.append_assoc]

/-- C7 witness: with index `[("g", [1])]`, the batch `["g", "f", "g"]`
reports not-found for `f` while both `g` extractions still run. -/
theorem claim_C7_witness :
    Cpp.lookupPos [(("g"), [1])] ("f") = [] ∧
    Cpp.process_functions [("int g() \x7b\x7d")] [(("g"), [1])]
        ([("g")] ++ ("f") :: [("g")])
      = Cpp.process_functions [("int g() \x7b\x7d")] [(("g"), [1])] [("g")]
        ++ Cpp.OutputItem.errNotFound ("f")
          :: Cpp.process_functions [("int g() \x7b\x7d")] [(("g"), [1])] [("g")] :=
  ⟨by decide, claim_C7 _ _ _ _ _ (by decide)⟩

theorem extract_loop_ne_nil (line : String) (rest : List String) (c : Int) (b : Bool) :
    Cpp.extract_loop (line :: rest) c b ≠ [] := by
  simp [Cpp.extract_loop]

theorem extract_function_body_ne_nil (file_content : List String) (ln : Int)
    (h1 : 1 ≤ ln) (h2 : ln ≤ (file_content.length : Int)) :
    Cpp.extract_function_body file_content ln ≠ [] := by
  simp only [Cpp.extract_function_body]
  rw [if_neg (by omega)]
  cases hdrop : file_content.drop (ln - 1).toNat with
  | nil =>
    exfalso
    have := List.drop_eq_nil_iff.mp hdrop
    omega
  | cons x xs =>
    exact extract_loop_ne_nil x xs 0 false

theorem process_positions_eq_blocks (file_content : List String) (fname : String)
    (total : Nat) : ∀ (l : List Int) (k : Nat),
    (∀ ln ∈ l, 1 ≤ ln ∧ ln ≤ (file_content.length : Int)) →
    Cpp.process_positions file_content fname total (l.enumFrom k)
      = (l.enumFrom k).flatMap (fun p =>
          (if 1 < total then [Cpp.OutputItem.headerMulti fname p.1 p.2]
           else [Cpp.OutputItem.headerSingle fname p.2])
          ++ (Cpp.extract_function_body file_content p.2).map Cpp.OutputItem.bodyLine
          ++ [Cpp.OutputItem.sep]) := by
  intro l
  induction l with
  | nil => intro k h; rfl
  | cons ln rest ih =>
    intro k h
    have hb := h ln (by simp)
    have hne := extract_function_body_ne_nil file_content ln hb.1 hb.2
    simp only [List.enumFrom_cons, Cpp.process_positions, List.flatMap_cons]
    rw [if_neg hne, ih (k + 1) (fun x hx => h x (by simp [hx]))]

/-- C9: for a name with a non-empty position list (all positions in range),
the batch processor resolves a non-empty span at every position and its
output is exactly one block per position, in discovery order; each block's
header carries the name and the 1-based match index with the line number
when more than one position exists, and only the name and line number when
there is exactly one. -/
theorem claim_C9 (file_content : List String) (function_positions : Cpp.PosMap)
    (x : String)
    (hne : Cpp.lookupPos function_positions x ≠ [])
    (hval : ∀ ln ∈ Cpp.lookupPos function_positions x,
       1 ≤ ln ∧ ln ≤ (file_content.length : Int)) :
    (∀ ln ∈ Cpp.lookupPos function_positions x,
       Cpp.extract_function_body file_content ln ≠ []) ∧
    Cpp.process_functions file_content function_positions [x]
      = ((Cpp.lookupPos function_positions x).enumFrom 1).flatMap (fun p =>
          (if 1 < (Cpp.lookupPos function_positions x).length
           then [Cpp.OutputItem.headerMulti x p.1 p.2]
           else [Cpp.OutputItem.headerSingle x p.2])
          ++ (Cpp.extract_function_body file_content p.2).map Cpp.OutputItem.bodyLine
          ++ [Cpp.OutputItem.sep]) := by
  constructor
  · intro ln hln
    exact extract_function_body_ne_nil _ ln (hval ln hln).1 (hval ln hln).2
  · simp only [Cpp.process_functions]
    rw [if_neg hne, process_positions_eq_blocks file_content x _ _ 1 hval]
    simp

/-- C9 witness: name `f` with two in-range positions yields two blocks with
match indices 1 and 2 in discovery order. -/
theorem claim_C9_witness :
    Cpp.lookupPos [(("f"), [1, 3])] ("f") ≠ [] ∧
    Cpp.process_functions
        [("void f() \x7b"), ("\x7d"), ("void f(int) \x7b"), ("\x7d")]
        [(("f"), [1, 3])] [("f")]
      = ((Cpp.lookupPos [(("f"), [1, 3])] ("f")).enumFrom 1).flatMap (fun p =>
          (if 1 < (Cpp.lookupPos [(("f"), [1, 3])] ("f")).length
           then [Cpp.OutputItem.headerMulti ("f") p.1 p.2]
           else [Cpp.OutputItem.headerSingle ("f") p.2])
          ++ (Cpp.extract_function_body
                [("void f() \x7b"), ("\x7d"), ("void f(int) \x7b"), ("\x7d")]
                p.2).map Cpp.OutputItem.bodyLine
          ++ [Cpp.OutputItem.sep]) :=
  ⟨by decide, (claim_C9 _ _ _ (by decide) (by decide)).2⟩

/-- C8 (amended): in the C++ script, cancelling the interactive selector
(no selection returned) prints the informational message, emits no extracted
blocks, and exits 0; in the Python script, however, the no-selection result
is passed unchecked into extraction, which reports the function as not found
and exits 1. -/
theorem claim_C8 :
    (∀ (file_content : List String) (function_positions : Cpp.PosMap),
       function_positions ≠ [] →
       Cpp.main_interactive file_content function_positions none
         = ([Cpp.OutputItem.infoCancelled], 0)) ∧
    (∀ (tree : List Py.FunctionDef) (source_lines : List String),
       tree ≠ [] →
       Py.main_interactive tree source_lines none
         = ([Py.PyOut.errNotFound none], 1)) := by
  constructor
  · intro file_content function_positions hpos
    have hsort : ((function_positions.map Prod.fst).mergeSort
        (fun a b => decide (a ≤ b))) ≠ [] := by
      intro hnil
      have hlen := congrArg List.length hnil
      simp only [List.length_mergeSort, List.length_map, List.length_nil] at hlen
      exact hpos (List.length_eq_zero.mp hlen)
    simp only [Cpp.main_interactive]
    rw [if_neg hpos]
    have hch : Cpp.choose_function_interactively function_positions none
        = ([Cpp.OutputItem.infoCancelled], Except.error 0) := by
      simp only [Cpp.choose_function_interactively]
      rw [if_neg hsort]
      rfl
    rw [hch]
  · intro tree source_lines htree
    have hfind : ∀ (t : List Py.FunctionDef),
        t.find? (fun node => some node.name == (none : Option String)) = none := by
      intro t
      induction t with
      | nil => rfl
      | cons a t2 ih =>
        simp only [List.find?]
        rw [show (some a.name == (none : Option String)) = false from rfl]
        exact ih
    have hnames : Py.get_function_names tree ≠ [] := by
      simp only [Py.get_function_names, ne_eq, List.map_eq_nil_iff]
      exact htree
    simp only [Py.main_interactive]
    rw [if_neg hnames]
    simp only [Py.extract_function]
    rw [hfind tree]

/-- C8 witness: concrete cancelled runs of both orchestrators. -/
theorem claim_C8_witness :
    ([(("f"), [1])] : Cpp.PosMap) ≠ [] ∧
    Cpp.main_interactive [("int g;")] [(("f"), [1])] none
      = ([Cpp.OutputItem.infoCancelled], 0) ∧
    ([⟨("alpha"), 1, 2, []⟩] : List Py.FunctionDef) ≠ [] ∧
    Py.main_interactive [⟨("alpha"), 1, 2, []⟩] [("def alpha():")] none
      = ([Py.PyOut.errNotFound none], 1) :=
  ⟨by decide, claim_C8.1 _ _ (by decide), by decide, claim_C8.2 _ _ (by decide)⟩

/-- C8 counterexample: in the Python script a user can reach a no-selection
return (type `q`, then Enter on the emptied list); feeding that cancelled
result to the program does not exit 0 with an informational message — it
prints the not-found error and exits 1. -/
theorem claim_C8_counterexample :
    Py.run_result [("alpha")] (initState [("alpha")]) [113, 10] = some none ∧
    Py.main_interactive [⟨("alpha"), 1, 2, []⟩] [("def alpha():"), ("    pass")] none
      = ([Py.PyOut.errNotFound none], 1) :=
  ⟨by decide, by decide⟩

/-- C10: for every file and every start line outside `1..lineCount`
(including zero and negative values), the brace-delimited body extractor
returns the empty failure value; the line list is never indexed out of
range (the model's guard returns before any traversal). -/
theorem claim_C10 (file_content : List String) (start_line : Int)
    (h : start_line < 1 ∨ (file_content.length : Int) < start_line) :
    Cpp.extract_function_body file_content start_line = [] := by
  simp only [Cpp.extract_function_body]
  split
  · rfl
  · omega

/-- C10 witness: start line 0 on a non-empty file yields the failure value. -/
theorem claim_C10_witness :
    ((0 : Int) < 1 ∨ (List.length [("int a;")] : Int) < 0) ∧
    Cpp.extract_function_body [("int a;")] 0 = [] :=
  ⟨Or.inl (by decide), claim_C10 _ 0 (Or.inl (by decide))⟩

end ExtractFunction
